import Mathlib

/-!
Shallow embedding of the CROPS grocery-price tracker core:
the reconciler (data_processor.py), the category classifier
(category_classifier.py), the price ledger (data_processor.py /
price_service.py) and the scrape orchestrator (scraper_manager.py).
Machine integers are Nat, prices and timestamps are rationals,
fallible steps are explicit. String operations are modelled on
character lists so that every definition evaluates by kernel
reduction.
-/

namespace CROPS

/-! ### String primitives mirroring the Python operations used by the source -/

/-- ASCII lower-casing of one character, as Python str.lower acts on the
ASCII range (the non-ASCII keywords in the source are caseless Arabic). -/
def charLower (c : Char) : Char :=
  if 65 ≤ c.toNat ∧ c.toNat ≤ 90 then Char.ofNat (c.toNat + 32) else c

/-- Python str.lower on a character list. -/
def lowerChars (l : List Char) : List Char := l.map charLower

/-- Whitespace test used by Python str.strip. -/
def isSpaceChar (c : Char) : Bool :=
  c == ' ' || c == '\t' || c == '\n' || c == '\r' ||
  c == (Char.ofNat 11) || c == (Char.ofNat 12)

/-- Python str.strip on a character list: drop whitespace at both ends. -/
def stripChars (l : List Char) : List Char :=
  ((l.dropWhile isSpaceChar).reverse.dropWhile isSpaceChar).reverse

/-- Python str.split with a single-character comma separator:
the empty string yields one empty segment, a trailing comma yields a
trailing empty segment. -/
def splitComma : List Char → List (List Char)
  | [] => [[]]
  | c :: t =>
    if c == ',' then [] :: splitComma t
    else
      match splitComma t with
      | [] => [[c]]
      | s :: rest => (c :: s) :: rest

/-- Python sequence prefix test on character lists. -/
def listStarts : List Char → List Char → Bool
  | [], _ => true
  | _ :: _, [] => false
  | a :: as, b :: bs => a == b && listStarts as bs

/-- Python `needle in hay` substring containment on character lists. -/
def listContains : List Char → List Char → Bool
  | needle, [] => listStarts needle []
  | needle, c :: t => listStarts needle (c :: t) || listContains needle t

/-! ### Reconciler: DataProcessor._find_matching_product -/

/-- Modelled from the spec: catalog entry (app.models.product.Product is
not under src); fields follow the §6 product schema — id, name, category,
comma-separated keywords string, active flag. -/
structure Product where
  id : Nat
  name : String
  category : String
  keywords : String
  is_active : Bool
deriving Repr, DecidableEq

/-- The keyword segments of a product: `product.keywords.lower().split(',')`. -/
def keywordSegments (p : Product) : List (List Char) :=
  splitComma (lowerChars p.keywords.data)

/-- One product's match test against a scraped name, as in the inner loop of
`_find_matching_product`: some keyword segment, stripped, is a substring of
the lowered scraped name. -/
def productMatches (p : Product) (scraped_name : String) : Bool :=
  (keywordSegments p).any
    (fun kw => listContains (stripChars kw) (lowerChars scraped_name.data))

/-- DataProcessor._find_matching_product: first catalog product, in catalog
order, whose keyword test succeeds; None if no product matches. -/
def find_matching_product (products : List Product) (scraped_name : String) :
    Option Product :=
  products.find? (fun p => productMatches p scraped_name)

/-! ### Category classifier: CategoryClassifier.classify -/

/-- Python re `\w` word-character test (ASCII alphanumerics, underscore, and
all non-ASCII codepoints treated as word characters, which covers the Arabic
keywords appearing in the lists). -/
def isWordChar (c : Char) : Bool :=
  c.isAlphanum || c == '_' || decide (128 ≤ c.toNat)

/-- Word-character test at an index, out-of-range counting as non-word. -/
def wordAt (text : List Char) (i : Nat) : Bool :=
  match text.get? i with
  | some c => isWordChar c
  | none => false

/-- Regex word-boundary `\b` at position i of the text (0 ≤ i ≤ length):
exactly one of the two adjacent positions holds a word character. -/
def boundaryAt (text : List Char) (i : Nat) : Bool :=
  (if i = 0 then false else wordAt text (i - 1)) != wordAt text i

/-- The keyword occurs literally at index i of the text. -/
def occursAt (kw text : List Char) (i : Nat) : Bool :=
  (text.drop i).take kw.length == kw

/-- Python `re.search(r'\b' + re.escape(kw) + r'\b', text)` as a Bool:
the keyword occurs somewhere with word boundaries on both sides. -/
def wbSearch (kw text : List Char) : Bool :=
  (List.range (text.length + 1)).any
    (fun i => occursAt kw text i && boundaryAt text i &&
      boundaryAt text (i + kw.length))

/-- The classifier's category-A keyword list, exactly as hardcoded in
CategoryClassifier.__init__. -/
def category_keywords_A : List String :=
  ["cucumber", "خيار", "tomato", "طماطم", "cherry tomato",
   "capsicum", "pepper", "فلفل", "arugula", "جرجير",
   "parsley", "بقدونس", "coriander", "كزبرة", "mint", "نعناع",
   "kale", "basil", "ريحان"]

/-- The classifier's category-B keyword list, exactly as hardcoded in
CategoryClassifier.__init__. -/
def category_keywords_B : List String :=
  ["lettuce", "خس", "chives", "ثوم معمر", "batavia"]

/-- CategoryClassifier.classify: lower the name, scan the B list first with
word-boundary search, then the A list, defaulting to "A". -/
def classify (product_name : String) : String :=
  let text := lowerChars product_name.data
  if category_keywords_B.any (fun kw => wbSearch kw.data text) then "B"
  else if category_keywords_A.any (fun kw => wbSearch kw.data text) then "A"
  else "A"

/-! ### Ledger data model -/

/-- Modelled from the spec: ScrapedItem (app.scrapers.base_scraper.ProductData
is not under src). Fields follow §3: name, price, optional original and
per-kilogram price, pack size and unit, availability, organic and discount
flags, optional brand, image and listing URLs, capture timestamp. -/
structure ProductData where
  name : String
  price : ℚ
  original_price : Option ℚ := none
  price_per_kg : Option ℚ := none
  pack_size : Option String := none
  pack_unit : Option String := none
  is_available : Bool := true
  is_organic : Bool := false
  is_discounted : Bool := false
  brand : Option String := none
  image_url : Option String := none
  product_url : Option String := none
  category : Option String := none
  scraped_at : ℚ := 0
deriving Repr, DecidableEq

/-- Modelled from the spec: CurrentPrice row (app.models.price.Price is not
under src); fields follow the §6 current_price schema, optional columns
defaulting to none when a writer does not set them. -/
structure Price where
  product_id : Nat
  store_id : Nat
  price : ℚ
  original_price : Option ℚ := none
  price_per_kg : Option ℚ := none
  pack_size : Option String := none
  pack_unit : Option String := none
  is_available : Bool := true
  is_organic : Bool := false
  is_discounted : Bool := false
  brand : Option String := none
  image_url : Option String := none
  product_url : Option String := none
  scraped_at : ℚ := 0
deriving Repr, DecidableEq

/-- Modelled from the spec: PriceHistoryRecord (app.models.price_history is
not under src); fields follow the §6 price_history schema, with recorded_at
timestamped at capture time per §3. -/
structure PriceHistory where
  product_id : Nat
  store_id : Nat
  price : ℚ
  is_available : Bool
  recorded_at : ℚ
deriving Repr, DecidableEq

/-- The durable state touched by DataProcessor.process_scraped_data:
the CurrentPrice table and the append-only history. -/
structure DB where
  prices : List Price
  history : List PriceHistory
deriving Repr, DecidableEq

/-! ### DataProcessor.process_scraped_data -/

/-- Row test for one (product, store) pair. -/
def pairMatch (pid sid : Nat) (pr : Price) : Bool :=
  pr.product_id == pid && pr.store_id == sid

/-- Whether some CurrentPrice row exists for the pair (the `.first()` query
of process_scraped_data finding a row). -/
def anyPair (l : List Price) (pid sid : Nat) : Bool :=
  l.any (pairMatch pid sid)

/-- The in-place overwrite performed on an existing CurrentPrice row:
price, availability and capture timestamp are updated, other columns kept. -/
def updatePriceRow (sp : ProductData) (pr : Price) : Price :=
  { pr with
    price := sp.price
    is_available := sp.is_available
    scraped_at := sp.scraped_at }

/-- Overwrite the first row matching the pair (the row `.first()` returns),
leaving every other row unchanged. -/
def updateFirstPrice (pid sid : Nat) (sp : ProductData) :
    List Price → List Price
  | [] => []
  | pr :: rest =>
    if pairMatch pid sid pr then updatePriceRow sp pr :: rest
    else pr :: updateFirstPrice pid sid sp rest

/-- The fresh CurrentPrice row inserted when no row exists for the pair
(process_scraped_data sets exactly these columns). -/
def newPriceRow (pid sid : Nat) (sp : ProductData) : Price :=
  { product_id := pid
    store_id := sid
    price := sp.price
    is_available := sp.is_available
    product_url := sp.product_url
    scraped_at := sp.scraped_at }

/-- The history record appended for every processed item. Modelled from the
spec: the source sets product_id, store_id, price and is_available; the
recorded_at column lives in the missing model class and is timestamped at
capture time per §3. -/
def newHistoryRow (pid sid : Nat) (sp : ProductData) : PriceHistory :=
  { product_id := pid
    store_id := sid
    price := sp.price
    is_available := sp.is_available
    recorded_at := sp.scraped_at }

/-- The structural validity filter of process_scraped_data:
`if not scraped_product.name or scraped_product.price <= 0: continue`. -/
def validItem (sp : ProductData) : Bool :=
  sp.name != "" && decide (0 < sp.price)

/-- One iteration of the process_scraped_data loop: skip invalid items,
skip unmatched items, otherwise upsert the CurrentPrice row and append one
history record. -/
def processItem (products : List Product) (store_id : Nat) (db : DB)
    (sp : ProductData) : DB :=
  if validItem sp then
    match find_matching_product products sp.name with
    | none => db
    | some prod =>
      let prices1 :=
        if anyPair db.prices prod.id store_id then
          updateFirstPrice prod.id store_id sp db.prices
        else db.prices ++ [newPriceRow prod.id store_id sp]
      { prices := prices1,
        history := db.history ++ [newHistoryRow prod.id store_id sp] }
  else db

/-- DataProcessor.process_scraped_data: fold the per-item step over the
scraped batch (an empty batch returns immediately, which the fold also
yields). -/
def process_scraped_data (products : List Product) (store_id : Nat)
    (db : DB) (items : List ProductData) : DB :=
  items.foldl (processItem products store_id) db

/-! ### PriceService._format_price_with_change -/

/-- One day, in the hour units used for timestamps here
(`timedelta(days=1)`). -/
def oneDay : ℚ := 24

/-- Rounding to two decimal places (Python round(x, 2); round-half-even
differs from this rounding only at exact midpoints, which no claim
exercises). -/
def round2 (x : ℚ) : ℚ := (round (x * 100) : ℤ) / 100

/-- One step of selecting the row with the latest recorded_at, the earlier
row winning ties. -/
def laterOf (acc : Option PriceHistory) (h : PriceHistory) :
    Option PriceHistory :=
  match acc with
  | none => some h
  | some b => if b.recorded_at < h.recorded_at then some h else some b

/-- The filter of the previous-price query: rows of the pair recorded
strictly before the cutoff. -/
def candRow (pid sid : Nat) (cutoff : ℚ) (h : PriceHistory) : Bool :=
  h.product_id == pid && h.store_id == sid && decide (h.recorded_at < cutoff)

/-- The `order_by(recorded_at.desc()).first()` query over the history rows
of one pair recorded strictly before the cutoff: the row with maximal
recorded_at. -/
def mostRecentBefore (hist : List PriceHistory) (pid sid : Nat)
    (cutoff : ℚ) : Option PriceHistory :=
  (hist.filter (candRow pid sid cutoff)).foldl laterOf none

/-- The price_change_percent field computed by
PriceService._format_price_with_change: previous row older than one day;
zero when absent or non-positive, else relative change in percent, rounded
to two decimals. -/
def price_change_percent (hist : List PriceHistory) (pr : Price)
    (now : ℚ) : ℚ :=
  let prev := mostRecentBefore hist pr.product_id pr.store_id (now - oneDay)
  let pcp : ℚ :=
    match prev with
    | some p => if 0 < p.price then (pr.price - p.price) / p.price * 100 else 0
    | none => 0
  round2 pcp

/-! ### ScraperManager: scrape_all_stores and _scrape_store_safe -/

/-- Modelled from the spec: Store row (app.models.store.Store is not under
src); fields follow the §6 store schema. -/
structure Store where
  id : Nat
  name : String
  url : String := ""
  is_active : Bool
  scraper_module : Option String
  status : String := "idle"
  last_scraped : Option ℚ := none
deriving Repr, DecidableEq

/-- The adapter registry keys hardcoded in ScraperManager.__init__. -/
def known_scraper_modules : List String :=
  ["gourmet_scraper", "rdna_scraper", "metro_scraper", "spinneys_scraper",
   "rabbit_scraper", "talabat_scraper", "instashop_scraper",
   "breadfast_scraper"]

/-- The outcome of one adapter invocation: a scraped item list, or the
exception its scrape raised. -/
def AdapterResult := Except Unit (List ProductData)

/-- ScraperManager._scrape_store_safe: run the adapter; on success set the
store idle and stamp last_scraped and return the items; on any exception set
the store offline and return the empty list. -/
def scrape_store_safe (run : Except Unit (List ProductData)) (store : Store)
    (now : ℚ) : Store × List ProductData :=
  match run with
  | Except.ok products =>
    ({ store with status := "idle", last_scraped := some now }, products)
  | Except.error _ => ({ store with status := "offline" }, [])

/-- The filter of scrape_all_stores: only active stores whose
scraper_module is set and registered are attempted. -/
def isAttempted (store : Store) : Bool :=
  store.is_active &&
    (match store.scraper_module with
     | some m => m != "" && known_scraper_modules.contains m
     | none => false)

/-- ScraperManager.scrape_all_stores, persistence aside: fan out over the
attempted stores, collect the per-store name-to-items entries in launch
order, and return them with the final store records. -/
def scrape_all_stores (run : Store → Except Unit (List ProductData))
    (stores : List Store) (now : ℚ) :
    List (String × List ProductData) × List Store :=
  let outs := (stores.filter isAttempted).map
    (fun s => (s, scrape_store_safe (run s) s now))
  (outs.map (fun x => (x.1.name, x.2.2)), outs.map (fun x => x.2.1))

/-! ### ScraperManager._save_store_results -/

/-- String lower-casing via the character-list model. -/
def lowerString (s : String) : String := String.mk (lowerChars s.data)

/-- Python `float(x) if x else None` on an optional numeric field. -/
def optFloat (o : Option ℚ) : Option ℚ :=
  match o with
  | some v => if v = 0 then none else some v
  | none => none

/-- The state _save_store_results reads and writes: the product table
(find-or-create by exact name, fresh ids counted up) and the CurrentPrice
table. -/
structure SaveDB where
  catalog : List Product
  next_id : Nat
  prices : List Price
deriving Repr, DecidableEq

/-- The CurrentPrice row _save_store_results inserts for one item. -/
def savedPriceRow (pid sid : Nat) (pd : ProductData) : Price :=
  { product_id := pid
    store_id := sid
    price := if pd.price = 0 then 0 else pd.price
    original_price := optFloat pd.original_price
    price_per_kg := optFloat pd.price_per_kg
    pack_size := pd.pack_size
    pack_unit := pd.pack_unit
    is_available := pd.is_available
    is_organic := pd.is_organic
    is_discounted := pd.is_discounted
    brand := pd.brand
    image_url := pd.image_url
    product_url := pd.product_url
    scraped_at := pd.scraped_at }

/-- One iteration of the _save_store_results loop: find or create the
product by exact name, delete every CurrentPrice row of the (product,
store) pair, insert the fresh row. -/
def save_item (store_id : Nat) (st : SaveDB) (pd : ProductData) : SaveDB :=
  let found :=
    match st.catalog.find? (fun p => p.name == pd.name) with
    | some p => (p, st.catalog, st.next_id)
    | none =>
      let p : Product :=
        { id := st.next_id
          name := pd.name
          category :=
            match pd.category with
            | some c => if c == "" then "uncategorized" else c
            | none => "uncategorized"
          keywords := lowerString pd.name
          is_active := true }
      (p, st.catalog ++ [p], st.next_id + 1)
  let pruned := st.prices.filter
    (fun pr => !(pairMatch found.1.id store_id pr))
  { catalog := found.2.1
    next_id := found.2.2
    prices := pruned ++ [savedPriceRow found.1.id store_id pd] }

/-- ScraperManager._save_store_results with the per-item try/except made
explicit: each item carries whether its save block raises; a raising item
is logged and skipped (continue), a clean item is saved and counted. -/
def save_store_results (store_id : Nat) (st : SaveDB)
    (items : List (ProductData × Bool)) : SaveDB × Nat :=
  items.foldl
    (fun acc it =>
      if it.2 then acc
      else (save_item store_id acc.1 it.1, acc.2 + 1))
    (st, 0)

/-- The spec's matching relation (§4.2): some keyword of the catalog entry
(a stripped comma-segment of its lowered keywords string) is a substring of
the lowered scraped name. -/
def SpecMatch (p : Product) (name : String) : Prop :=
  ∃ kw ∈ (keywordSegments p).map stripChars,
    ∃ s t, lowerChars name.data = s ++ kw ++ t

/-- The spec's reading of a previous-price candidate (§4.3): a history row
of the pair recorded strictly before the cutoff. -/
def IsCandidate (pid sid : Nat) (cutoff : ℚ) (h : PriceHistory) : Prop :=
  h.product_id = pid ∧ h.store_id = sid ∧ h.recorded_at < cutoff

/-- A sample scraped item used by concrete witnesses. -/
def exItem : ProductData :=
  { name := "Organic Cucumber", price := 12, scraped_at := 50 }

/-- A sample store whose adapter will fail in the witnesses. -/
def exStoreFail : Store :=
  { id := 1, name := "FailMart", is_active := true,
    scraper_module := some "metro_scraper" }

/-- A sample store whose adapter will succeed in the witnesses. -/
def exStoreGood : Store :=
  { id := 2, name := "GoodMart", is_active := true,
    scraper_module := some "gourmet_scraper" }

/-- A sample adapter environment: the adapter of store 1 raises, every
other adapter returns one item. -/
def exRun (s : Store) : Except Unit (List ProductData) :=
  if s.id = 1 then Except.error () else Except.ok [exItem]

/-! ### Invariants and counters of the ledger state -/

/-- The uniqueness invariant of §3: at most one CurrentPrice row per
(product, store) pair. -/
def UniquePairs (l : List Price) : Prop :=
  l.Pairwise (fun a b => a.product_id ≠ b.product_id ∨ a.store_id ≠ b.store_id)

/-- The history rows of one (product, store) pair, in append order. -/
def histFor (hist : List PriceHistory) (pid sid : Nat) :
    List PriceHistory :=
  hist.filter (fun h => h.product_id == pid && h.store_id == sid)

/-- The history record whose captured values mirror a CurrentPrice row. -/
def rowAsHistory (pr : Price) : PriceHistory :=
  { product_id := pr.product_id
    store_id := pr.store_id
    price := pr.price
    is_available := pr.is_available
    recorded_at := pr.scraped_at }

/-- The coherence invariant of §3: every CurrentPrice row's captured
values (price, availability, timestamp) equal the most recent — last
appended — history record of its pair. -/
def Coherent (db : DB) : Prop :=
  ∀ pr ∈ db.prices,
    (histFor db.history pr.product_id pr.store_id).getLast? =
      some (rowAsHistory pr)

/-- Number of CurrentPrice rows of one pair. -/
def countPrice (db : DB) (pid sid : Nat) : Nat :=
  (db.prices.filter (pairMatch pid sid)).length

/-- Number of history records of one pair. -/
def countHist (db : DB) (pid sid : Nat) : Nat :=
  (histFor db.history pid sid).length

/-- The catalog product id a scraped item is reconciled to, if the item is
valid and matched. -/
def itemPid (products : List Product) (sp : ProductData) : Option Nat :=
  if validItem sp then
    (find_matching_product products sp.name).map (fun p => p.id)
  else none

/-- The product ids of the valid, matched items of a batch, in processing
order (with multiplicity). -/
def matchedPids (products : List Product) (items : List ProductData) :
    List Nat :=
  items.filterMap (itemPid products)

/-- A one-product catalog used by concrete witnesses. -/
def exCatalog : List Product :=
  [{ id := 1, name := "Cucumbers", category := "A",
     keywords := "cucumber", is_active := true }]

/-- A batch containing the same matching item twice. -/
def exBatch : List ProductData := [exItem, exItem]

/-! ### Lemmas about the string primitives -/

theorem listStarts_iff (n h : List Char) :
    listStarts n h = true ↔ ∃ t, h = n ++ t := by
  induction n generalizing h with
  | nil => simp [listStarts]
  | cons a as ih =>
    cases h with
    | nil => simp [listStarts]
    | cons b bs =>
      simp only [listStarts, Bool.and_eq_true, beq_iff_eq, ih,
        List.cons_append, List.cons.injEq]
      constructor
      · rintro ⟨rfl, t, rfl⟩
        exact ⟨t, rfl, rfl⟩
      · rintro ⟨t, rfl, rfl⟩
        exact ⟨rfl, t, rfl⟩

theorem listContains_iff (n h : List Char) :
    listContains n h = true ↔ ∃ s t, h = s ++ n ++ t := by
  induction h with
  | nil =>
    simp only [listContains, listStarts_iff]
    constructor
    · rintro ⟨t, ht⟩
      exact ⟨[], t, by simpa using ht⟩
    · rintro ⟨s, t, ht⟩
      rcases List.append_eq_nil.mp (ht.symm) with ⟨h1, h2⟩
      rcases List.append_eq_nil.mp h1 with ⟨rfl, rfl⟩
      exact ⟨t, by simpa using h2.symm⟩
  | cons c cs ih =>
    simp only [listContains, Bool.or_eq_true, listStarts_iff, ih]
    constructor
    · rintro (⟨t, ht⟩ | ⟨s, t, ht⟩)
      · exact ⟨[], t, by simpa using ht⟩
      · exact ⟨c :: s, t, by simp [ht]⟩
    · rintro ⟨s, t, ht⟩
      cases s with
      | nil => exact Or.inl ⟨t, by simpa using ht⟩
      | cons d ds =>
        simp only [List.cons_append, List.cons.injEq] at ht
        exact Or.inr ⟨ds, t, ht.2⟩

theorem productMatches_iff (p : Product) (name : String) :
    productMatches p name = true ↔ SpecMatch p name := by
  simp [productMatches, SpecMatch, List.any_eq_true, listContains_iff]

theorem find?_eq_some_split {α : Type} (q : α → Bool) (l : List α) (a : α) :
    l.find? q = some a ↔
      ∃ pre post, l = pre ++ a :: post ∧ (∀ x ∈ pre, q x = false) ∧
        q a = true := by
  induction l with
  | nil => simp
  | cons b t ih =>
    by_cases hb : q b = true
    · rw [List.find?_cons_of_pos t hb]
      constructor
      · rintro h
        cases h
        exact ⟨[], t, rfl, by simp, hb⟩
      · rintro ⟨pre, post, heq, hpre, ha⟩
        cases pre with
        | nil =>
          simp only [List.nil_append, List.cons.injEq] at heq
          rw [heq.1]
        | cons x xs =>
          simp only [List.cons_append, List.cons.injEq] at heq
          have := hpre x (by simp)
          rw [← heq.1] at this
          rw [this] at hb
          cases hb
    · rw [List.find?_cons_of_neg t hb]
      rw [ih]
      constructor
      · rintro ⟨pre, post, heq, hpre, ha⟩
        refine ⟨b :: pre, post, by simp [heq], ?_, ha⟩
        intro x hx
        rcases List.mem_cons.mp hx with rfl | hx
        · exact Bool.not_eq_true _ ▸ (by simpa using hb)
        · exact hpre x hx
      · rintro ⟨pre, post, heq, hpre, ha⟩
        cases pre with
        | nil =>
          simp only [List.nil_append, List.cons.injEq] at heq
          rw [heq.1] at hb
          exact absurd ha hb
        | cons x xs =>
          simp only [List.cons_append, List.cons.injEq] at heq
          exact ⟨xs, post, heq.2, fun y hy => hpre y (by simp [hy]), ha⟩

/-! ### C5 -/

/-- C5: for every catalog and scraped name, _find_matching_product returns
the first catalog entry, in catalog iteration order, one of whose keywords
is a case-insensitive substring of the scraped name, and returns None
exactly when no catalog entry has such a keyword. -/
theorem c5_find_matching_product_first (products : List Product)
    (name : String) :
    (∀ p, find_matching_product products name = some p ↔
      ∃ pre post, products = pre ++ p :: post ∧
        (∀ q ∈ pre, ¬ SpecMatch q name) ∧ SpecMatch p name) ∧
    (find_matching_product products name = none ↔
      ∀ p ∈ products, ¬ SpecMatch p name) := by
  constructor
  · intro p
    rw [find_matching_product, find?_eq_some_split]
    constructor
    · rintro ⟨pre, post, heq, hpre, ha⟩
      refine ⟨pre, post, heq, ?_, (productMatches_iff _ _).mp ha⟩
      intro q hq hq2
      have := hpre q hq
      rw [(productMatches_iff q name).mpr hq2] at this
      cases this
    · rintro ⟨pre, post, heq, hpre, ha⟩
      refine ⟨pre, post, heq, ?_, (productMatches_iff _ _).mpr ha⟩
      intro x hx
      have := hpre x hx
      cases hmx : productMatches x name
      · rfl
      · exact absurd ((productMatches_iff x name).mp hmx) this
  · rw [find_matching_product, List.find?_eq_none]
    constructor
    · intro h p hp hsp
      exact (h p hp) ((productMatches_iff p name).mpr hsp)
    · intro h p hp hb
      exact (h p hp) ((productMatches_iff p name).mp hb)

/-! ### C10 -/

/-- An empty (stripped) keyword segment matches every scraped name. -/
theorem productMatches_of_empty_segment (p : Product) (name : String)
    (h : ∃ kw ∈ keywordSegments p, stripChars kw = []) :
    productMatches p name = true := by
  rcases h with ⟨kw, hkw, hstrip⟩
  rw [productMatches, List.any_eq_true]
  refine ⟨kw, hkw, ?_⟩
  rw [hstrip]
  rw [listContains_iff]
  exact ⟨[], lowerChars name.data, by simp⟩

/-- C10: if some catalog product's keywords string yields an empty segment
after splitting on commas and stripping whitespace, the match never returns
None: every scraped name is matched to that product or to an earlier
catalog entry. -/
theorem c10_empty_keyword_matches_everything (pre : List Product)
    (p : Product) (post : List Product) (name : String)
    (h : ∃ kw ∈ keywordSegments p, stripChars kw = []) :
    ∃ q, find_matching_product (pre ++ p :: post) name = some q ∧
      q ∈ pre ++ [p] := by
  induction pre with
  | nil =>
    refine ⟨p, ?_, by simp⟩
    have hp := productMatches_of_empty_segment p name h
    simp [find_matching_product, List.find?_cons, hp]
  | cons r rs ih =>
    by_cases hr : productMatches r name = true
    · refine ⟨r, ?_, by simp⟩
      simp [find_matching_product, List.find?_cons, hr]
    · rcases ih with ⟨q, hq, hmem⟩
      have hr2 : productMatches r name = false := by
        cases hx : productMatches r name
        · rfl
        · exact absurd hx hr
      refine ⟨q, ?_, by simp [List.mem_append] at hmem ⊢; tauto⟩
      rw [find_matching_product] at hq ⊢
      simpa [List.find?_cons, hr2] using hq

/-- Concrete instance of C10: a catalog entry whose keywords string has a
trailing comma captures an unrelated scraped name. -/
theorem c10_witness :
    (∃ kw ∈ keywordSegments
        { id := 1, name := "Tomatoes", category := "A",
          keywords := "tomato,", is_active := true },
      stripChars kw = []) ∧
    ∃ q, find_matching_product
        [{ id := 1, name := "Tomatoes", category := "A",
           keywords := "tomato,", is_active := true }] "Unrelated Widget" =
          some q ∧
      q ∈ ([] : List Product) ++
        [{ id := 1, name := "Tomatoes", category := "A",
           keywords := "tomato,", is_active := true }] := by
  refine ⟨by decide, ?_⟩
  exact c10_empty_keyword_matches_everything []
    { id := 1, name := "Tomatoes", category := "A",
      keywords := "tomato,", is_active := true }
    [] "Unrelated Widget" (by decide)

/-! ### C6 -/

/-- The classifier's output is decided by the B list alone: both the
A-match branch and the default return "A". -/
theorem classify_eq (name : String) :
    classify name =
      if category_keywords_B.any
          (fun kw => wbSearch kw.data (lowerChars name.data)) then "B"
      else "A" := by
  rw [classify]
  by_cases hB : (category_keywords_B.any
      fun kw => wbSearch kw.data (lowerChars name.data)) = true
  · simp [hB]
  · simp [hB]

/-- C6 counterexample: with the keyword lists hardcoded in the source,
classifying "Cherry Tomato Pack 500g" returns "A", not "B": the source
places "cherry tomato" (and "tomato") in the category-A list and no
category-B keyword occurs in the name. -/
theorem c6_counterexample :
    classify "Cherry Tomato Pack 500g" = "A" ∧ ("A" : String) ≠ "B" :=
  ⟨by decide, by decide⟩

/-- C6 amended: classify checks the B keyword list before the A list with
word-boundary matching and defaults to "A" when neither matches — the
result is "B" exactly when some B keyword word-matches the lowered name,
and "A" otherwise.  With the source's lists, "Cherry Tomato Pack 500g"
yields "A" (its matching keywords sit in the A list), while a name
containing "lettuce" alongside "tomato" yields "B". -/
theorem c6_amended (name : String) :
    (classify name = "B" ↔
      ∃ kw ∈ category_keywords_B,
        wbSearch kw.data (lowerChars name.data) = true) ∧
    (classify name = "B" ∨ classify name = "A") ∧
    classify "Cherry Tomato Pack 500g" = "A" ∧
    classify "Fresh Lettuce And Tomato Mix" = "B" := by
  refine ⟨?_, ?_, by decide, by decide⟩
  · rw [classify_eq]
    by_cases hB : (category_keywords_B.any
        fun kw => wbSearch kw.data (lowerChars name.data)) = true
    · rw [if_pos hB]
      exact ⟨fun _ => List.any_eq_true.mp hB, fun _ => rfl⟩
    · rw [if_neg hB]
      constructor
      · intro h
        exact absurd h (by decide)
      · intro hex
        exact absurd (List.any_eq_true.mpr hex) hB
  · rw [classify_eq]
    by_cases hB : (category_keywords_B.any
        fun kw => wbSearch kw.data (lowerChars name.data)) = true
    · exact Or.inl (by rw [if_pos hB])
    · exact Or.inr (by rw [if_neg hB])

/-! ### C9 -/

/-- C9 counterexample: in a batch where store 1's adapter raises and store
2's adapter succeeds with zero items, the result map carries the identical
value [] for both stores — the failed store has no failure marker
distinguishable from a successful empty scrape. -/
theorem c9_counterexample :
    (scrape_all_stores
        (fun s => if s.id = 1 then Except.error () else Except.ok [])
        [exStoreFail,
         { id := 2, name := "EmptyMart", is_active := true,
           scraper_module := some "gourmet_scraper" }] 0).1 =
      [("FailMart", ([] : List ProductData)),
       ("EmptyMart", ([] : List ProductData))] := by
  decide

/-- C9 amended: a store whose adapter failed is reported in the result map
with an empty item list, identical to the entry of a successful scrape
that found zero items; the failure is distinguishable only through the
store record, whose status becomes "offline" on failure and "idle" (with
last_scraped stamped) on success. -/
theorem c9_amended (store : Store) (now : ℚ) (l : List ProductData) :
    (scrape_store_safe (Except.error ()) store now).2 =
      (scrape_store_safe (Except.ok []) store now).2 ∧
    (scrape_store_safe (Except.error ()) store now).1.status = "offline" ∧
    (scrape_store_safe (Except.ok l) store now).1.status = "idle" ∧
    (scrape_store_safe (Except.ok l) store now).1.last_scraped = some now ∧
    (scrape_store_safe (Except.ok l) store now).2 = l :=
  ⟨rfl, rfl, rfl, rfl, rfl⟩

/-! ### C1 -/

/-- C1: in a batch where exactly one attempted store's adapter raises,
every other attempted store's entry in the result map is exactly the item
list its adapter produced, the failed store's record ends with status
"offline", and the failed store is reported with an empty list. -/
theorem c1_single_failure_isolated
    (run : Store → Except Unit (List ProductData)) (stores : List Store)
    (now : ℚ) (f : Store)
    (hf : f ∈ stores.filter isAttempted)
    (herr : run f = Except.error ())
    (hrest : ∀ s ∈ stores.filter isAttempted, s ≠ f →
      ∃ l, run s = Except.ok l) :
    (∀ s ∈ stores.filter isAttempted, ∀ l, run s = Except.ok l →
      (s.name, l) ∈ (scrape_all_stores run stores now).1) ∧
    { f with status := "offline" } ∈ (scrape_all_stores run stores now).2 ∧
    (f.name, ([] : List ProductData)) ∈
      (scrape_all_stores run stores now).1 := by
  refine ⟨?_, ?_, ?_⟩
  · intro s hs l hl
    rw [scrape_all_stores]
    simp only [List.map_map, List.mem_map]
    refine ⟨s, hs, ?_⟩
    simp [scrape_store_safe, hl]
  · rw [scrape_all_stores]
    simp only [List.map_map, List.mem_map]
    refine ⟨f, hf, ?_⟩
    simp [scrape_store_safe, herr]
  · rw [scrape_all_stores]
    simp only [List.map_map, List.mem_map]
    refine ⟨f, hf, ?_⟩
    simp [scrape_store_safe, herr]

/-- Concrete instance of C1: two attempted stores, the first adapter
raises, the second returns one item; the good store's entry is intact and
the failed store goes offline. -/
theorem c1_witness :
    (∀ s ∈ [exStoreFail, exStoreGood].filter isAttempted, ∀ l,
        exRun s = Except.ok l →
      (s.name, l) ∈
        (scrape_all_stores exRun [exStoreFail, exStoreGood] 0).1) ∧
    { exStoreFail with status := "offline" } ∈
      (scrape_all_stores exRun [exStoreFail, exStoreGood] 0).2 ∧
    (exStoreFail.name, ([] : List ProductData)) ∈
      (scrape_all_stores exRun [exStoreFail, exStoreGood] 0).1 := by
  refine c1_single_failure_isolated exRun [exStoreFail, exStoreGood] 0
    exStoreFail (by decide) rfl ?_
  intro s hs hne
  have hs2 : s = exStoreFail ∨ s = exStoreGood := by
    simpa [List.mem_filter] using (List.mem_filter.mp hs).1
  rcases hs2 with rfl | rfl
  · exact absurd rfl hne
  · exact ⟨[exItem], rfl⟩

/-! ### C7 -/

/-- An item with empty name, non-positive price, or no catalog match leaves
the database untouched. -/
theorem processItem_skip (products : List Product) (sid : Nat) (db : DB)
    (sp : ProductData)
    (h : sp.name = "" ∨ sp.price ≤ 0 ∨
      find_matching_product products sp.name = none) :
    processItem products sid db sp = db := by
  by_cases hv : validItem sp = true
  · have hfind : find_matching_product products sp.name = none := by
      rcases h with h1 | h2 | h3
      · exfalso
        simp [validItem, h1] at hv
      · exfalso
        simp only [validItem, Bool.and_eq_true, bne_iff_ne, ne_eq,
          decide_eq_true_eq] at hv
        exact absurd hv.2 (not_lt.mpr h2)
      · exact h3
    simp [processItem, hv, hfind]
  · simp [processItem, hv]

/-- C7: a ScrapedItem with non-positive price, empty name, or no catalog
match is dropped by process_scraped_data — it produces no CurrentPrice row
and no PriceHistoryRecord row, and the rest of the batch is processed
exactly as if the item were absent. -/
theorem c7_invalid_item_dropped (products : List Product) (sid : Nat)
    (db : DB) (pre post : List ProductData) (sp : ProductData)
    (h : sp.name = "" ∨ sp.price ≤ 0 ∨
      find_matching_product products sp.name = none) :
    process_scraped_data products sid db (pre ++ sp :: post) =
      process_scraped_data products sid db (pre ++ post) := by
  rw [process_scraped_data, process_scraped_data, List.foldl_append,
    List.foldl_append, List.foldl_cons,
    processItem_skip products sid _ sp h]

/-- Concrete instance of C7: a zero-priced item is dropped and the
remaining batch is processed unchanged. -/
theorem c7_witness :
    process_scraped_data
        [{ id := 1, name := "Cucumbers", category := "A",
           keywords := "cucumber", is_active := true }] 1
        { prices := [], history := [] }
        ([] ++ { name := "Bad Cucumber", price := 0, scraped_at := 7 } ::
          [exItem]) =
      process_scraped_data
        [{ id := 1, name := "Cucumbers", category := "A",
           keywords := "cucumber", is_active := true }] 1
        { prices := [], history := [] } ([] ++ [exItem]) :=
  c7_invalid_item_dropped _ 1 _ [] [exItem] _ (Or.inr (Or.inl (by norm_num)))

/-! ### C8 -/

/-- The save loop with an explicit accumulator: failing items are skipped,
clean items are folded in and counted. -/
theorem save_fold_aux (sid : Nat) (items : List (ProductData × Bool)) :
    ∀ (st : SaveDB) (n : Nat),
      items.foldl
          (fun acc it =>
            if it.2 then acc else (save_item sid acc.1 it.1, acc.2 + 1))
          (st, n) =
        ((items.filter (fun it => !it.2)).foldl
            (fun s it => save_item sid s it.1) st,
         n + (items.filter (fun it => !it.2)).length) := by
  induction items with
  | nil => intro st n; simp
  | cons it rest ih =>
    intro st n
    by_cases h2 : it.2
    · simp only [List.foldl_cons, if_pos h2, List.filter_cons,
        h2, Bool.not_true, ih]
      simp
    · simp only [List.foldl_cons, if_neg h2, List.filter_cons]
      have h2f : it.2 = false := by
        cases hx : it.2
        · rfl
        · exact absurd hx h2
      simp only [h2f, Bool.not_false, if_pos, ih]
      simp [List.length_cons]
      omega

/-- C8: a failing ledger write is isolated to its own item: the final
state equals the one obtained by saving exactly the non-failing items, and
the returned saved-count is the number of non-failing items — reduced by
the failures, with no other pair's write aborted or rolled back. -/
theorem c8_persistence_failure_isolated (sid : Nat) (st : SaveDB)
    (items : List (ProductData × Bool)) :
    save_store_results sid st items =
      ((items.filter (fun it => !it.2)).foldl
          (fun s it => save_item sid s it.1) st,
       (items.filter (fun it => !it.2)).length) := by
  rw [save_store_results, save_fold_aux]
  simp

/-! ### C2: the upsert pipeline preserves uniqueness and coherence -/

theorem pairMatch_iff (pid sid : Nat) (pr : Price) :
    pairMatch pid sid pr = true ↔
      pr.product_id = pid ∧ pr.store_id = sid := by
  simp [pairMatch]

theorem pair_bool_false (pid sid pid2 sid2 : Nat)
    (h : ¬(pid = pid2 ∧ sid = sid2)) :
    (pid == pid2 && sid == sid2) = false := by
  by_cases h1 : pid = pid2
  · by_cases h2 : sid = sid2
    · exact absurd ⟨h1, h2⟩ h
    · simp [h2]
  · simp [h1]

/-- The overwrite splits the table at the first matching row. -/
theorem updateFirstPrice_split (pid sid : Nat) (sp : ProductData)
    (l : List Price) (hex : anyPair l pid sid = true) :
    ∃ l1 x l2, l = l1 ++ x :: l2 ∧
      (∀ y ∈ l1, pairMatch pid sid y = false) ∧
      pairMatch pid sid x = true ∧
      updateFirstPrice pid sid sp l = l1 ++ updatePriceRow sp x :: l2 := by
  induction l with
  | nil => simp [anyPair] at hex
  | cons pr rest ih =>
    cases hm : pairMatch pid sid pr with
    | true =>
      exact ⟨[], pr, rest, rfl, by simp, hm,
        by simp [updateFirstPrice, hm]⟩
    | false =>
      have hex2 : anyPair rest pid sid = true := by
        simp only [anyPair, List.any_cons, hm, Bool.false_or] at hex
        exact hex
      rcases ih hex2 with ⟨l1, x, l2, heq, h1, hx, hupd⟩
      refine ⟨pr :: l1, x, l2, by simp [heq], ?_, hx, ?_⟩
      · intro y hy
        rcases List.mem_cons.mp hy with rfl | hy
        · exact hm
        · exact h1 y hy
      · simp [updateFirstPrice, hm, hupd]

/-- Rows of the overwritten table carry the pair ids of rows of the old
table. -/
theorem mem_updateFirst_ids (pid sid : Nat) (sp : ProductData)
    (l : List Price) (b : Price)
    (hb : b ∈ updateFirstPrice pid sid sp l) :
    ∃ a ∈ l, b.product_id = a.product_id ∧ b.store_id = a.store_id := by
  induction l with
  | nil => simp [updateFirstPrice] at hb
  | cons pr rest ih =>
    rw [updateFirstPrice] at hb
    by_cases hm : pairMatch pid sid pr = true
    · rw [if_pos hm] at hb
      rcases List.mem_cons.mp hb with rfl | hb
      · exact ⟨pr, by simp, by simp [updatePriceRow]⟩
      · exact ⟨b, by simp [hb], rfl, rfl⟩
    · rw [if_neg hm] at hb
      rcases List.mem_cons.mp hb with rfl | hb
      · exact ⟨b, by simp, rfl, rfl⟩
      · rcases ih hb with ⟨a, ha, h1, h2⟩
        exact ⟨a, by simp [ha], h1, h2⟩

/-- The in-place overwrite keeps the uniqueness invariant. -/
theorem uniquePairs_updateFirst (pid sid : Nat) (sp : ProductData)
    (l : List Price) (hU : UniquePairs l) :
    UniquePairs (updateFirstPrice pid sid sp l) := by
  induction l with
  | nil => simpa [updateFirstPrice] using hU
  | cons pr rest ih =>
    unfold UniquePairs at hU ⊢
    rcases List.pairwise_cons.mp hU with ⟨h1, h2⟩
    rw [updateFirstPrice]
    by_cases hm : pairMatch pid sid pr = true
    · rw [if_pos hm]
      refine List.pairwise_cons.mpr ⟨?_, h2⟩
      intro b hb
      simpa [updatePriceRow] using h1 b hb
    · rw [if_neg hm]
      refine List.pairwise_cons.mpr ⟨?_, ih h2⟩
      intro b hb
      rcases mem_updateFirst_ids pid sid sp rest b hb with ⟨a, ha, e1, e2⟩
      rcases h1 a ha with h | h
      · exact Or.inl (by rw [e1]; exact h)
      · exact Or.inr (by rw [e2]; exact h)

/-- Inserting a row for a pair with no existing row keeps the uniqueness
invariant. -/
theorem uniquePairs_append_new (l : List Price) (pid sid : Nat)
    (sp : ProductData) (hU : UniquePairs l)
    (hnone : ¬ anyPair l pid sid = true) :
    UniquePairs (l ++ [newPriceRow pid sid sp]) := by
  unfold UniquePairs at hU ⊢
  rw [List.pairwise_append]
  refine ⟨hU, by simp, ?_⟩
  intro a ha b hb
  have hb2 : b = newPriceRow pid sid sp := by simpa using hb
  have hfa : ¬ pairMatch pid sid a = true := by
    intro hc
    exact hnone (List.any_eq_true.mpr ⟨a, ha, hc⟩)
  rw [pairMatch_iff] at hfa
  subst hb2
  by_cases h1 : a.product_id = pid
  · by_cases h2 : a.store_id = sid
    · exact absurd ⟨h1, h2⟩ hfa
    · exact Or.inr (by simpa [newPriceRow] using h2)
  · exact Or.inl (by simpa [newPriceRow] using h1)

/-- Appending the pair's own history record extends its pair filter. -/
theorem histFor_append_same (hist : List PriceHistory) (pid sid : Nat)
    (sp : ProductData) :
    histFor (hist ++ [newHistoryRow pid sid sp]) pid sid =
      histFor hist pid sid ++ [newHistoryRow pid sid sp] := by
  simp [histFor, List.filter_append, newHistoryRow]

/-- Appending another pair's history record leaves a pair filter
unchanged. -/
theorem histFor_append_other (hist : List PriceHistory)
    (pid sid pid2 sid2 : Nat) (sp : ProductData)
    (hne : ¬(pid = pid2 ∧ sid = sid2)) :
    histFor (hist ++ [newHistoryRow pid sid sp]) pid2 sid2 =
      histFor hist pid2 sid2 := by
  simp only [histFor, List.filter_append, List.filter_cons,
    List.filter_nil, newHistoryRow]
  rw [pair_bool_false pid sid pid2 sid2 hne]
  simp

/-- Coherence of a row untouched by the append of another pair's record. -/
theorem coherent_untouched (db : DB) (hC : Coherent db) (pid sid : Nat)
    (sp : ProductData) (pr : Price) (hpr : pr ∈ db.prices)
    (hne : ¬(pid = pr.product_id ∧ sid = pr.store_id)) :
    (histFor (db.history ++ [newHistoryRow pid sid sp]) pr.product_id
        pr.store_id).getLast? = some (rowAsHistory pr) := by
  rw [histFor_append_other db.history pid sid pr.product_id pr.store_id
    sp hne]
  exact hC pr hpr

/-- processItem on a valid matched item: the resulting tables. -/
theorem processItem_eq (products : List Product) (sid : Nat) (db : DB)
    (sp : ProductData) (prod : Product) (hv : validItem sp = true)
    (hfind : find_matching_product products sp.name = some prod) :
    processItem products sid db sp =
      { prices :=
          if anyPair db.prices prod.id sid then
            updateFirstPrice prod.id sid sp db.prices
          else db.prices ++ [newPriceRow prod.id sid sp],
        history := db.history ++ [newHistoryRow prod.id sid sp] } := by
  simp [processItem, hv, hfind]

/-- One processItem step preserves uniqueness and coherence. -/
theorem processItem_preserves (products : List Product) (sid : Nat)
    (db : DB) (sp : ProductData)
    (hU : UniquePairs db.prices) (hC : Coherent db) :
    UniquePairs (processItem products sid db sp).prices ∧
    Coherent (processItem products sid db sp) := by
  by_cases hv : validItem sp = true
  · cases hfind : find_matching_product products sp.name with
    | none =>
      rw [processItem_skip products sid db sp (Or.inr (Or.inr hfind))]
      exact ⟨hU, hC⟩
    | some prod =>
      rw [processItem_eq products sid db sp prod hv hfind]
      by_cases hex : anyPair db.prices prod.id sid = true
      · rw [if_pos hex]
        rcases updateFirstPrice_split prod.id sid sp db.prices hex with
          ⟨l1, x, l2, heq, hl1, hx, hupd⟩
        rcases (pairMatch_iff prod.id sid x).mp hx with ⟨hxp, hxs⟩
        constructor
        · exact uniquePairs_updateFirst prod.id sid sp db.prices hU
        · intro pr hpr
          simp only at hpr ⊢
          rw [hupd] at hpr
          rcases List.mem_append.mp hpr with hpr1 | hpr2
          · have hprold : pr ∈ db.prices := by
              rw [heq]
              exact List.mem_append_left _ hpr1
            have hue := hl1 pr hpr1
            have hne : ¬(prod.id = pr.product_id ∧ sid = pr.store_id) := by
              rintro ⟨e1, e2⟩
              rw [(pairMatch_iff prod.id sid pr).mpr ⟨e1.symm, e2.symm⟩]
                at hue
              cases hue
            exact coherent_untouched db hC prod.id sid sp pr hprold hne
          · rcases List.mem_cons.mp hpr2 with rfl | hpr3
            · have hids : (updatePriceRow sp x).product_id = prod.id ∧
                  (updatePriceRow sp x).store_id = sid := by
                simp [updatePriceRow, hxp, hxs]
              rw [hids.1, hids.2, histFor_append_same]
              rw [List.getLast?_concat]
              simp [rowAsHistory, updatePriceRow, newHistoryRow, hxp, hxs]
            · have hprold : pr ∈ db.prices := by
                rw [heq]
                exact List.mem_append_right _ (by simp [hpr3])
              have hRxpr : x.product_id ≠ pr.product_id ∨
                  x.store_id ≠ pr.store_id := by
                have hU2 := hU
                unfold UniquePairs at hU2
                rw [heq] at hU2
                rcases List.pairwise_append.mp hU2 with ⟨_, hcons, _⟩
                rcases List.pairwise_cons.mp hcons with ⟨hxall, _⟩
                exact hxall pr hpr3
              have hne : ¬(prod.id = pr.product_id ∧
                  sid = pr.store_id) := by
                rintro ⟨e1, e2⟩
                rcases hRxpr with h | h
                · exact h (by rw [hxp, e1])
                · exact h (by rw [hxs, e2])
              exact coherent_untouched db hC prod.id sid sp pr hprold hne
      · rw [if_neg hex]
        constructor
        · exact uniquePairs_append_new db.prices prod.id sid sp hU hex
        · intro pr hpr
          simp only at hpr ⊢
          rcases List.mem_append.mp hpr with hpr1 | hpr2
          · have hne : ¬(prod.id = pr.product_id ∧ sid = pr.store_id) := by
              rintro ⟨e1, e2⟩
              exact hex (List.any_eq_true.mpr ⟨pr, hpr1,
                (pairMatch_iff prod.id sid pr).mpr ⟨e1.symm, e2.symm⟩⟩)
            exact coherent_untouched db hC prod.id sid sp pr hpr1 hne
          · have hpr3 : pr = newPriceRow prod.id sid sp := by
              simpa using hpr2
            subst hpr3
            have hids : (newPriceRow prod.id sid sp).product_id = prod.id ∧
                (newPriceRow prod.id sid sp).store_id = sid := by
              simp [newPriceRow]
            rw [hids.1, hids.2, histFor_append_same]
            rw [List.getLast?_concat]
            simp [rowAsHistory, newPriceRow, newHistoryRow]
  · rw [processItem_skip products sid db sp]
    · exact ⟨hU, hC⟩
    · rcases Bool.not_eq_true (validItem sp) ▸ hv with hveq
      simp only [validItem, Bool.and_eq_true, bne_iff_ne, ne_eq,
        decide_eq_true_eq, not_and_or] at hv
      rcases hv with h1 | h2
      · exact Or.inl (by by_contra hc; exact h1 hc)
      · exact Or.inr (Or.inl (not_lt.mp h2))

/-- The whole batch preserves uniqueness and coherence. -/
theorem process_preserves (products : List Product) (sid : Nat)
    (items : List ProductData) :
    ∀ db : DB, UniquePairs db.prices → Coherent db →
      UniquePairs (process_scraped_data products sid db items).prices ∧
      Coherent (process_scraped_data products sid db items) := by
  induction items with
  | nil =>
    intro db hU hC
    exact ⟨hU, hC⟩
  | cons sp rest ih =>
    intro db hU hC
    rcases processItem_preserves products sid db sp hU hC with ⟨h1, h2⟩
    have hres := ih (processItem products sid db sp) h1 h2
    simpa [process_scraped_data, List.foldl_cons] using hres

/-- C2: after a run of process_scraped_data from a state satisfying the
ledger invariants, every (product, store) pair has at most one
CurrentPrice row, and each row's captured values (price, availability,
timestamp) equal the most recent PriceHistoryRecord of its pair. -/
theorem c2_ledger_invariant (products : List Product) (sid : Nat)
    (db : DB) (items : List ProductData)
    (hU : UniquePairs db.prices) (hC : Coherent db) :
    UniquePairs (process_scraped_data products sid db items).prices ∧
    Coherent (process_scraped_data products sid db items) :=
  process_preserves products sid items db hU hC

/-- Concrete instance of C2: one matching item processed from the empty
ledger. -/
theorem c2_witness :
    UniquePairs (process_scraped_data exCatalog 1
      { prices := [], history := [] } [exItem]).prices ∧
    Coherent (process_scraped_data exCatalog 1
      { prices := [], history := [] } [exItem]) :=
  c2_ledger_invariant exCatalog 1 { prices := [], history := [] } [exItem]
    (by simp [UniquePairs]) (by simp [Coherent])

/-! ### C3 -/

theorem invalid_cases (sp : ProductData) (hv : ¬ validItem sp = true) :
    sp.name = "" ∨ sp.price ≤ 0 := by
  simp only [validItem, Bool.and_eq_true, bne_iff_ne, ne_eq,
    decide_eq_true_eq, not_and_or] at hv
  rcases hv with h1 | h2
  · exact Or.inl (by by_contra hc; exact h1 hc)
  · exact Or.inr (not_lt.mp h2)

theorem processItem_skip_invalid (products : List Product) (sid : Nat)
    (db : DB) (sp : ProductData) (hv : ¬ validItem sp = true) :
    processItem products sid db sp = db := by
  rcases invalid_cases sp hv with h | h
  · exact processItem_skip products sid db sp (Or.inl h)
  · exact processItem_skip products sid db sp (Or.inr (Or.inl h))

theorem countHist_processItem (products : List Product) (sid : Nat)
    (db : DB) (sp : ProductData) (pid : Nat) :
    countHist (processItem products sid db sp) pid sid =
      countHist db pid sid +
        (if itemPid products sp = some pid then 1 else 0) := by
  by_cases hv : validItem sp = true
  · cases hfind : find_matching_product products sp.name with
    | none =>
      rw [processItem_skip products sid db sp (Or.inr (Or.inr hfind))]
      simp [itemPid, hv, hfind]
    | some prod =>
      rw [processItem_eq products sid db sp prod hv hfind]
      by_cases hp : prod.id = pid
      · subst hp
        simp only [countHist]
        rw [histFor_append_same]
        simp [itemPid, hv, hfind]
      · simp only [countHist]
        rw [histFor_append_other db.history prod.id sid pid sid sp
          (by tauto)]
        simp [itemPid, hv, hfind, hp]
  · rw [processItem_skip_invalid products sid db sp hv]
    simp [itemPid, hv]

theorem countHist_process (products : List Product) (sid : Nat)
    (items : List ProductData) :
    ∀ (db : DB) (pid : Nat),
      countHist (process_scraped_data products sid db items) pid sid =
        countHist db pid sid + (matchedPids products items).count pid := by
  induction items with
  | nil =>
    intro db pid
    simp [process_scraped_data, matchedPids]
  | cons sp rest ih =>
    intro db pid
    have h1 := countHist_processItem products sid db sp pid
    have h2 := ih (processItem products sid db sp) pid
    simp only [process_scraped_data, List.foldl_cons] at h2 ⊢
    rw [h2, h1]
    cases hip : itemPid products sp with
    | none => simp [matchedPids, List.filterMap_cons, hip]
    | some q =>
      by_cases hq : q = pid
      · subst hq
        simp [matchedPids, List.filterMap_cons, hip, List.count_cons]
        omega
      · simp [matchedPids, List.filterMap_cons, hip, List.count_cons, hq]

theorem countPrice_updateFirst (pid sid : Nat) (sp : ProductData)
    (l : List Price) (pid2 sid2 : Nat) :
    ((updateFirstPrice pid sid sp l).filter
        (pairMatch pid2 sid2)).length =
      (l.filter (pairMatch pid2 sid2)).length := by
  induction l with
  | nil => simp [updateFirstPrice]
  | cons pr rest ih =>
    rw [updateFirstPrice]
    by_cases hm : pairMatch pid sid pr = true
    · rw [if_pos hm]
      have hsame : pairMatch pid2 sid2 (updatePriceRow sp pr) =
          pairMatch pid2 sid2 pr := by
        simp [pairMatch, updatePriceRow]
      rw [List.filter_cons, List.filter_cons, hsame]
      split <;> simp
    · rw [if_neg hm]
      rw [List.filter_cons, List.filter_cons]
      split <;> simp [ih]

theorem anyPair_iff_countPrice (l : List Price) (pid sid : Nat) :
    anyPair l pid sid = true ↔
      0 < (l.filter (pairMatch pid sid)).length := by
  rw [anyPair, List.any_eq_true]
  constructor
  · rintro ⟨x, hx, hm⟩
    have hmem : x ∈ l.filter (pairMatch pid sid) :=
      List.mem_filter.mpr ⟨hx, hm⟩
    exact List.length_pos.mpr (List.ne_nil_of_mem hmem)
  · intro hlen
    rcases List.exists_mem_of_length_pos hlen with ⟨x, hx⟩
    rcases List.mem_filter.mp hx with ⟨h1, h2⟩
    exact ⟨x, h1, h2⟩

theorem countPrice_processItem (products : List Product) (sid : Nat)
    (db : DB) (sp : ProductData) (pid : Nat) :
    countPrice (processItem products sid db sp) pid sid =
      if itemPid products sp = some pid ∧ countPrice db pid sid = 0
      then 1 else countPrice db pid sid := by
  by_cases hv : validItem sp = true
  · cases hfind : find_matching_product products sp.name with
    | none =>
      rw [processItem_skip products sid db sp (Or.inr (Or.inr hfind))]
      simp [itemPid, hv, hfind]
    | some prod =>
      rw [processItem_eq products sid db sp prod hv hfind]
      simp only [countPrice]
      by_cases hex : anyPair db.prices prod.id sid = true
      · rw [if_pos hex, countPrice_updateFirst]
        have hcond : ¬(itemPid products sp = some pid ∧
            (db.prices.filter (pairMatch pid sid)).length = 0) := by
          rintro ⟨hpid, hzero⟩
          have hq : prod.id = pid := by
            simpa [itemPid, hv, hfind] using hpid
          subst hq
          have := (anyPair_iff_countPrice db.prices prod.id sid).mp hex
          omega
        rw [if_neg hcond]
      · rw [if_neg hex, List.filter_append, List.length_append]
        by_cases hp : prod.id = pid
        · subst hp
          have hc0 : (db.prices.filter
              (pairMatch prod.id sid)).length = 0 := by
            by_contra hc
            exact hex ((anyPair_iff_countPrice db.prices prod.id sid).mpr
              (by omega))
          have hnew : pairMatch prod.id sid
              (newPriceRow prod.id sid sp) = true := by
            simp [pairMatch, newPriceRow]
          simp [List.filter_cons, hnew, hc0, itemPid, hv, hfind]
        · have hnew : pairMatch pid sid
              (newPriceRow prod.id sid sp) = false := by
            simp [pairMatch, newPriceRow, hp]
          simp [List.filter_cons, hnew, itemPid, hv, hfind, hp]
  · rw [processItem_skip_invalid products sid db sp hv]
    simp [itemPid, hv]

theorem countPrice_process (products : List Product) (sid : Nat)
    (items : List ProductData) :
    ∀ (db : DB) (pid : Nat),
      countPrice (process_scraped_data products sid db items) pid sid =
        if pid ∈ matchedPids products items ∧ countPrice db pid sid = 0
        then 1 else countPrice db pid sid := by
  induction items with
  | nil =>
    intro db pid
    simp [process_scraped_data, matchedPids]
  | cons sp rest ih =>
    intro db pid
    have h1 := countPrice_processItem products sid db sp pid
    have h2 := ih (processItem products sid db sp) pid
    simp only [process_scraped_data, List.foldl_cons] at h2 ⊢
    rw [h2, h1]
    cases hip : itemPid products sp with
    | none =>
      simp only [matchedPids, List.filterMap_cons, hip]
      have : ¬((none : Option Nat) = some pid ∧
          countPrice db pid sid = 0) := by simp
      rw [if_neg this]
    | some q =>
      by_cases hq : q = pid
      · by_cases hc : countPrice db pid sid = 0
        · simp [matchedPids, List.filterMap_cons, hip, hq, hc]
        · simp [matchedPids, List.filterMap_cons, hip, hq, hc]
      · have hq2 : ¬ pid = q := fun h => hq h.symm
        simp [matchedPids, List.filterMap_cons, hip, hq, hq2]

theorem countPrice_le_one (db : DB) (hU : UniquePairs db.prices)
    (pid sid : Nat) : countPrice db pid sid ≤ 1 := by
  have key : ∀ l : List Price, UniquePairs l →
      (l.filter (pairMatch pid sid)).length ≤ 1 := by
    intro l hUl
    induction l with
    | nil => simp
    | cons pr rest ih =>
      unfold UniquePairs at hUl
      rcases List.pairwise_cons.mp hUl with ⟨h1, h2⟩
      rw [List.filter_cons]
      by_cases hm : pairMatch pid sid pr = true
      · rw [if_pos hm]
        have hnil : rest.filter (pairMatch pid sid) = [] := by
          rw [List.filter_eq_nil_iff]
          intro b hb hmb
          rcases (pairMatch_iff pid sid pr).mp hm with ⟨e1, e2⟩
          rcases (pairMatch_iff pid sid b).mp hmb with ⟨f1, f2⟩
          rcases h1 b hb with h | h
          · exact h (by rw [e1, f1])
          · exact h (by rw [e2, f2])
        simp [hnil]
      · rw [if_neg hm]
        exact ih h2
  exact key db.prices hU

/-- C3 counterexample: with a batch holding the same matching item twice,
the second invocation of process_scraped_data appends two history records
for the single matched pair, not one per pair. -/
theorem c3_counterexample :
    countHist (process_scraped_data exCatalog 1
        (process_scraped_data exCatalog 1 { prices := [], history := [] }
          exBatch) exBatch) 1 1 =
      countHist (process_scraped_data exCatalog 1
        { prices := [], history := [] } exBatch) 1 1 + 2 ∧
    (2 : Nat) ≠ 1 ∧
    matchedPids exCatalog exBatch = [1, 1] := by
  refine ⟨by decide, by decide, by decide⟩

/-- C3 amended: the upsert overwrites in place when a CurrentPrice row
exists for the pair and inserts one otherwise, and appends one
PriceHistoryRecord per processed item; hence when no two items of the
batch reconcile to the same product, processing the same batch twice from
a unique-pairs state leaves exactly one CurrentPrice row per matched pair
and appends exactly one new PriceHistoryRecord per matched pair per
invocation. -/
theorem c3_amended_idempotent_upsert (products : List Product) (sid : Nat)
    (db : DB) (items : List ProductData) (pid : Nat)
    (hU : UniquePairs db.prices)
    (hnd : (matchedPids products items).Nodup)
    (hmem : pid ∈ matchedPids products items) :
    countPrice (process_scraped_data products sid
      (process_scraped_data products sid db items) items) pid sid = 1 ∧
    countHist (process_scraped_data products sid db items) pid sid =
      countHist db pid sid + 1 ∧
    countHist (process_scraped_data products sid
      (process_scraped_data products sid db items) items) pid sid =
      countHist (process_scraped_data products sid db items) pid sid +
        1 := by
  have hcount1 : (matchedPids products items).count pid = 1 :=
    List.count_eq_one_of_mem hnd hmem
  have hle := countPrice_le_one db hU pid sid
  refine ⟨?_, ?_, ?_⟩
  · have hdb1 := countPrice_process products sid items db pid
    have hdb2 := countPrice_process products sid items
      (process_scraped_data products sid db items) pid
    by_cases hc : countPrice db pid sid = 0
    · rw [if_pos ⟨hmem, hc⟩] at hdb1
      rw [hdb2, hdb1]
      simp
    · have h1 : ¬(pid ∈ matchedPids products items ∧
          countPrice db pid sid = 0) := fun h => hc h.2
      rw [if_neg h1] at hdb1
      have hone : countPrice db pid sid = 1 := by omega
      rw [hdb2, hdb1, hone]
      simp
  · rw [countHist_process products sid items db pid, hcount1]
  · rw [countHist_process products sid items
      (process_scraped_data products sid db items) pid, hcount1]

/-- Concrete instance of the amended C3: one matching item processed twice
from the empty ledger. -/
theorem c3_witness :
    countPrice (process_scraped_data exCatalog 1
      (process_scraped_data exCatalog 1 { prices := [], history := [] }
        [exItem]) [exItem]) 1 1 = 1 ∧
    countHist (process_scraped_data exCatalog 1
      { prices := [], history := [] } [exItem]) 1 1 =
      countHist ({ prices := [], history := [] } : DB) 1 1 + 1 ∧
    countHist (process_scraped_data exCatalog 1
      (process_scraped_data exCatalog 1 { prices := [], history := [] }
        [exItem]) [exItem]) 1 1 =
      countHist (process_scraped_data exCatalog 1
        { prices := [], history := [] } [exItem]) 1 1 + 1 :=
  c3_amended_idempotent_upsert exCatalog 1 { prices := [], history := [] }
    [exItem] 1 (by simp [UniquePairs]) (by decide) (by decide)

/-! ### C4 -/

theorem candRow_iff (pid sid : Nat) (cutoff : ℚ) (h : PriceHistory) :
    candRow pid sid cutoff h = true ↔ IsCandidate pid sid cutoff h := by
  simp [candRow, IsCandidate, and_assoc]

theorem round2_zero : round2 0 = 0 := by
  norm_num [round2]

/-- Folding laterOf from a seed yields a row of maximal recorded_at among
the seed and the list. -/
theorem laterOf_fold (l : List PriceHistory) :
    ∀ b : PriceHistory, ∃ m, l.foldl laterOf (some b) = some m ∧
      (m = b ∨ m ∈ l) ∧ b.recorded_at ≤ m.recorded_at ∧
      ∀ x ∈ l, x.recorded_at ≤ m.recorded_at := by
  induction l with
  | nil =>
    intro b
    exact ⟨b, rfl, Or.inl rfl, le_refl _, by simp⟩
  | cons h t ih =>
    intro b
    by_cases hlt : b.recorded_at < h.recorded_at
    · rcases ih h with ⟨m, heq, hm, hbm, hall⟩
      refine ⟨m, ?_, ?_, le_trans (le_of_lt hlt) hbm, ?_⟩
      · simpa [List.foldl_cons, laterOf, hlt] using heq
      · rcases hm with rfl | hm
        · exact Or.inr (by simp)
        · exact Or.inr (by simp [hm])
      · intro x hx
        rcases List.mem_cons.mp hx with rfl | hx
        · exact hbm
        · exact hall x hx
    · rcases ih b with ⟨m, heq, hm, hbm, hall⟩
      refine ⟨m, ?_, ?_, hbm, ?_⟩
      · simpa [List.foldl_cons, laterOf, hlt] using heq
      · rcases hm with rfl | hm
        · exact Or.inl rfl
        · exact Or.inr (by simp [hm])
      · intro x hx
        rcases List.mem_cons.mp hx with rfl | hx
        · exact le_trans (not_lt.mp hlt) hbm
        · exact hall x hx

/-- When some candidate row exists, the previous-price query returns a
candidate whose recorded_at dominates every candidate. -/
theorem mostRecentBefore_max (hist : List PriceHistory) (pid sid : Nat)
    (cutoff : ℚ) (h : PriceHistory)
    (hmem : h ∈ hist.filter (candRow pid sid cutoff)) :
    ∃ m, mostRecentBefore hist pid sid cutoff = some m ∧
      m ∈ hist.filter (candRow pid sid cutoff) ∧
      ∀ x ∈ hist.filter (candRow pid sid cutoff),
        x.recorded_at ≤ m.recorded_at := by
  rw [mostRecentBefore]
  cases hf : hist.filter (candRow pid sid cutoff) with
  | nil => rw [hf] at hmem; cases hmem
  | cons c rest =>
    rcases laterOf_fold rest c with ⟨m, heq, hm, hcm, hall⟩
    refine ⟨m, by simpa [List.foldl_cons, laterOf] using heq, ?_, ?_⟩
    · rcases hm with rfl | hm
      · simp [hf]
      · simp [hf, hm]
    · intro x hx
      rcases List.mem_cons.mp hx with rfl | hx
      · exact hcm
      · exact hall x hx

/-- C4: price_change_percent is computed from the most recent history row
strictly older than now minus 24h — zero when no such row exists or its
price is non-positive, otherwise the relative change in percent rounded to
two decimals; a previous price 20 at 36h before now with current price 25
yields 25, and history only newer than 24h yields 0. -/
theorem c4_price_change_percent :
    (∀ (hist : List PriceHistory) (pr : Price) (now : ℚ),
      (∀ h ∈ hist,
        ¬ IsCandidate pr.product_id pr.store_id (now - oneDay) h) →
      price_change_percent hist pr now = 0) ∧
    (∀ (hist : List PriceHistory) (pr : Price) (now : ℚ)
        (h : PriceHistory), h ∈ hist →
      IsCandidate pr.product_id pr.store_id (now - oneDay) h →
      (∀ h2 ∈ hist,
        IsCandidate pr.product_id pr.store_id (now - oneDay) h2 →
        h2 = h ∨ h2.recorded_at < h.recorded_at) →
      (h.price ≤ 0 → price_change_percent hist pr now = 0) ∧
      (0 < h.price → price_change_percent hist pr now =
        round2 ((pr.price - h.price) / h.price * 100))) ∧
    price_change_percent
      [{ product_id := 1, store_id := 1, price := 20, is_available := true,
         recorded_at := 64 }]
      { product_id := 1, store_id := 1, price := 25, scraped_at := 100 }
      100 = 25 ∧
    price_change_percent
      [{ product_id := 1, store_id := 1, price := 20, is_available := true,
         recorded_at := 88 }]
      { product_id := 1, store_id := 1, price := 25, scraped_at := 100 }
      100 = 0 := by
  refine ⟨?_, ?_, ?_, ?_⟩
  case refine_3 =>
    norm_num [price_change_percent, mostRecentBefore, candRow, laterOf,
      oneDay, round2, round_eq]
  case refine_4 =>
    norm_num [price_change_percent, mostRecentBefore, candRow, laterOf,
      oneDay, round2, round_eq]
  · intro hist pr now hnone
    have hfil : hist.filter
        (candRow pr.product_id pr.store_id (now - oneDay)) = [] := by
      rw [List.filter_eq_nil_iff]
      intro h hh
      intro hc
      exact hnone h hh ((candRow_iff _ _ _ _).mp hc)
    rw [price_change_percent, mostRecentBefore, hfil]
    exact round2_zero
  · intro hist pr now h hh hcand huniq
    have hmem : h ∈ hist.filter
        (candRow pr.product_id pr.store_id (now - oneDay)) :=
      List.mem_filter.mpr ⟨hh, (candRow_iff _ _ _ _).mpr hcand⟩
    rcases mostRecentBefore_max hist pr.product_id pr.store_id
      (now - oneDay) h hmem with ⟨m, hmrb, hmfil, hdom⟩
    have hmh : m = h := by
      rcases List.mem_filter.mp hmfil with ⟨hm1, hm2⟩
      rcases huniq m hm1 ((candRow_iff _ _ _ _).mp hm2) with rfl | hlt
      · rfl
      · exact absurd (hdom h hmem) (not_le.mpr hlt)
    rw [hmh] at hmrb
    constructor
    · intro hple
      simp only [price_change_percent, hmrb]
      rw [if_neg (not_lt.mpr hple)]
      exact round2_zero
    · intro hppos
      simp only [price_change_percent, hmrb]
      rw [if_pos hppos]

end CROPS
